import Mathlib

/-!
Verification development for the `lit-motion` library: a Lit adaptor for the
Motion animation engine.  The development shallowly embeds the three
directives of the library — `timeline` (src/timeline.ts), `animate`
(src/animate.ts), and `segment` (src/segment.ts) — together with the
`measure` geometry helper of the alternate animate implementation, as
executable Lean functions and state machines, and proves the behavioural
properties of the segment-coordination protocol, the variant animator, and
the finished-callback lifecycle against them.

Modelling conventions:
* JS strings and symbols that can serve as timeline names are `Name`
  (`Name.str` / `Name.sym`); `undefined` is `Option.none`.
* The JS sparse array `#segments` is a `List (Option Nat)`: `none` is a
  hole, and a stored `TimelineSegment` tuple is identified by a numeric id.
  `arrGet`, `arrSet` and `setLength` reproduce indexing, index assignment
  (which pads with holes past the end) and `array.length = n` assignment.
* Fallible listener code returns an explicit outcome (`LOut`), and a trace
  of render-host and DOM events is executed by `tlRun`, which accumulates
  the calls made to the Motion engine (`motionTimeline(segments, options)`).
* The engine is external: fresh playback controls are assumed to autoplay,
  so `playState !== "idle"` holds at start time (the library itself notes
  that `autoplay: false` is unsupported).
-/

namespace LitMotion

/-- Timeline or segment name: a JS string or a symbol (`string | symbol`). -/
inductive Name where
  | str (s : String)
  | sym (n : Nat)
deriving DecidableEq, Repr

/-- Options accepted by the `timeline` directive (`TimelineOptions`):
a matching name, an opaque engine-options payload, and whether a
`finished` callback was supplied. -/
structure TLOptions where
  name : Option Name
  payload : Nat
  finished : Bool
deriving DecidableEq, Repr

/-- Detail record of a `litmotionsegment` event (`SegmentEventDetail`) as it
reaches a timeline listener: the segment tuple (by id), the declared index,
whether the `end` marker is present, and the name field actually present on
the event. -/
structure SegDetail where
  segId : Nat
  index : Nat
  endM : Bool
  name : Option Name
deriving DecidableEq, Repr

/-- JS array read `a[i]`: `none` both past the end and at a hole. -/
def arrGet (l : List (Option Nat)) (i : Nat) : Option Nat :=
  l.getD i none

/-- JS array write `a[i] = v`: pads with holes up to `i` when `i` is past
the end, then stores `some v` at position `i`. -/
def arrSet (l : List (Option Nat)) (i : Nat) (v : Nat) : List (Option Nat) :=
  (l ++ List.replicate (i + 1 - l.length) none).set i (some v)

/-- JS array length assignment `a.length = n`: truncates, or pads with
holes. -/
def setLength (l : List (Option Nat)) (n : Nat) : List (Option Nat) :=
  l.take n ++ List.replicate (n - l.length) none

/-- Number of filled (non-hole) slots of the modelled array. -/
def countFilled (l : List (Option Nat)) : Nat :=
  l.countP (fun x => x.isSome)

/-- State of one `Timeline` directive instance (the private fields of class
`Timeline` in src/timeline.ts), plus the directive's lit connection flag.
`capturedOptions` is the `options` value closed over by the
`litmotionsegment` listener at installation time (first update). -/
structure TimelineState where
  controls : Option Unit
  segments : List (Option Nat)
  segmentsCount : Nat
  segmentsLength : Option Nat
  listenerAdded : Bool
  capturedOptions : Option TLOptions
  connected : Bool
  finishSet : Bool
  finishPending : Bool
deriving DecidableEq, Repr

/-- Initial state of a freshly constructed `Timeline` directive. -/
def tlInit : TimelineState :=
  { controls := none, segments := [], segmentsCount := 0, segmentsLength := none,
    listenerAdded := false, capturedOptions := none, connected := true,
    finishSet := false, finishPending := false }

/-- Exceptions thrown by the timeline segment listener. -/
inductive TErr where
  /-- `Segments cannot be added after the animation has started.` -/
  | started
  /-- `Segment at index ${index} already exists.` -/
  | dup (index : Nat)
  /-- `Two end segments found.` -/
  | twoEnd
deriving DecidableEq, Repr

/-- One invocation of the Motion engine
`motionTimeline(this.#segments, options)`: the segment array passed and the
options passed. -/
def EngineCall : Type := List (Option Nat) × Option TLOptions
deriving instance DecidableEq, Repr for EngineCall

/-- Result of one `Timeline.update` invocation: the new state, the engine
call performed (if the readiness check passed), and the JS return value —
`some ()` for the `noChange` sentinel, `none` for `undefined` (a bare
`return;`). -/
structure TLUpOut where
  state : TimelineState
  call : Option EngineCall
  ret : Option Unit
deriving DecidableEq, Repr

/-- Body of `Timeline.update` after listener installation
(src/timeline.ts lines 89-117): the readiness guard and, when it passes,
the single engine invocation and the finished-waiter arming (fresh controls
autoplay, so `playState !== "idle"`). -/
def tlUpdateBody (st : TimelineState) (options : Option TLOptions) : TLUpOut :=
  if st.segmentsLength ≠ some st.segmentsCount ∨ st.connected = false ∨
      st.controls ≠ none then
    ⟨st, none, none⟩
  else
    let hasFin := (options.map (·.finished)).getD false
    ⟨{ st with controls := some (), finishSet := hasFin, finishPending := hasFin },
      some (st.segments, options), some ()⟩

/-- Full `Timeline.update`: installs the `litmotionsegment` listener on the
first invocation, capturing that invocation's `options` in its closure,
then runs the readiness body. -/
def tlUpdate (st : TimelineState) (options : Option TLOptions) : TLUpOut :=
  let st' := if st.listenerAdded then st
    else { st with listenerAdded := true, capturedOptions := options }
  tlUpdateBody st' options

/-- Outcome of the segment listener on one `litmotionsegment` event. -/
inductive LOut where
  /-- Name mismatch: state untouched, the event keeps bubbling. -/
  | ignored
  /-- A configuration error was thrown. -/
  | threw (e : TErr)
  /-- Propagation stopped, `attached()` invoked, segment stored; the
  recursive `update` ran with the captured options. -/
  | handled (st : TimelineState) (call : Option EngineCall)
deriving DecidableEq, Repr

/-- Storage phase of the `litmotionsegment` listener (src/timeline.ts
lines 70-82), run after the acknowledgment: the duplicate-index check, the
slot write and count increment, and — for an end-marked segment — the
two-end check, the expected-length assignment and the array truncation. -/
def listenerStore (st : TimelineState) (d : SegDetail) : Except TErr TimelineState :=
  if arrGet st.segments d.index ≠ none then
    .error (.dup d.index)
  else
    let st1 := { st with
      segments := arrSet st.segments d.index d.segId,
      segmentsCount := st.segmentsCount + 1 }
    if d.endM then
      if st1.segmentsLength ≠ none then
        .error .twoEnd
      else
        .ok { st1 with
          segmentsLength := some (d.index + 1),
          segments := setLength st1.segments (d.index + 1) }
    else
      .ok st1

/-- The `litmotionsegment` listener installed by `Timeline.update`
(src/timeline.ts lines 55-85): the name-match guard, the
animation-already-started check, then — after
`event.stopImmediatePropagation()` and `segmentEvent.detail.attached()` —
the storage phase and the recursive `update` with the captured options. -/
def listenerBody (st : TimelineState) (d : SegDetail) : LOut :=
  if d.name ≠ st.capturedOptions.bind (·.name) then
    .ignored
  else if st.controls ≠ none then
    .threw .started
  else
    match listenerStore st d with
    | .error e => .threw e
    | .ok st2 =>
      let u := tlUpdate st2 st.capturedOptions
      .handled u.state u.call

/-- Events driving one timeline directive instance: a render-host `update`
with fresh options, a `litmotionsegment` event reaching the element, and a
lit connect/disconnect transition. -/
inductive TLEvent where
  | update (options : Option TLOptions)
  | segEvt (d : SegDetail)
  | setConn (b : Bool)
deriving DecidableEq, Repr

/-- One event step of the timeline instance.  A segment event with no
installed listener is inert; `disconnected()`/`reconnected()` only call
`cancel()`/`play()` on the engine controls and flip the connection flag. -/
def tlStep (st : TimelineState) (e : TLEvent) : Except TErr (TimelineState × Option EngineCall) :=
  match e with
  | .update o =>
    let u := tlUpdate st o
    .ok (u.state, u.call)
  | .setConn b => .ok ({ st with connected := b }, none)
  | .segEvt d =>
    if st.listenerAdded = false then .ok (st, none)
    else
      match listenerBody st d with
      | .ignored => .ok (st, none)
      | .threw e => .error e
      | .handled st' c => .ok (st', c)

/-- Run a trace of events, accumulating the engine calls in order; a thrown
configuration error halts the run. -/
def tlRun (st : TimelineState) : List TLEvent → Except TErr TimelineState × List EngineCall
  | [] => (.ok st, [])
  | e :: evs =>
    match tlStep st e with
    | .error err => (.error err, [])
    | .ok (st', c) =>
      let r := tlRun st' evs
      (r.1, c.toList ++ r.2)

/-- Invariant of a timeline instance whose matching segment events all stay
inside `0..N-1`, avoid index `j`, and carry the end marker only at
`N-1`: the animation has not started, the expected length is unset or `N`,
the collection fits in `N` slots, the filled-count is the number of filled
slots, and every filled slot is inside `0..N-1` and distinct from `j`. -/
def goodState (N j : Nat) (st : TimelineState) : Prop :=
  st.controls = none ∧
  (st.segmentsLength = none ∨ st.segmentsLength = some N) ∧
  st.segments.length ≤ N ∧
  st.segmentsCount = countFilled st.segments ∧
  (∀ i, arrGet st.segments i ≠ none → i < N ∧ i ≠ j)

/-- Side condition on one event relative to bound `N` and missing index
`j`: segment events stay inside `0..N-1`, avoid `j`, and mark the end only
at `N-1`; updates and connection flips are unrestricted. -/
def gapEvent (N j : Nat) : TLEvent → Prop
  | .segEvt d => d.index < N ∧ d.index ≠ j ∧ (d.endM = true → d.index + 1 = N)
  | _ => True

/-! Segment directive (src/segment.ts, class `Segment`). -/

/-- Parameters of one `segment(...)` binding (`SegmentParameters`): the
declared timeline name, the order — an index and whether the `[index, true]`
end-marker form was used — and the segment tuple (element + keyframes +
options) as an opaque id. -/
structure SegParams where
  name : Option Name
  order : Nat × Bool
  segId : Nat
deriving DecidableEq, Repr

/-- Name field actually placed on a `SegmentEvent`'s detail by
`Segment.update`: the construction spreads `{name}` only under
`typeof name === "string"`, so symbol names are dropped. -/
def eventName : Option Name → Option Name
  | some (.str s) => some (.str s)
  | _ => none

/-- Detail of the `SegmentEvent` constructed by `Segment.update` for the
given parameters. -/
def mkDetail (p : SegParams) : SegDetail :=
  ⟨p.segId, p.order.1, p.order.2, eventName p.name⟩

/-- State of one `Segment` directive instance: `#attached`, and `#name`
where `none` is the initial `false` sentinel (distinct from a stored
`undefined` name, which is `some none`). -/
structure SegState where
  attached : Bool
  name : Option (Option Name)
deriving DecidableEq, Repr

/-- Initial state of a freshly constructed `Segment` directive. -/
def segInit : SegState := { attached := false, name := none }

/-- Result of one `Segment.update` invocation: new state, the event detail
whose deferred dispatch was queued (if any), and the JS return value
(`some ()` for `noChange`, `none` for `undefined`). -/
structure SegUpOut where
  state : SegState
  queued : Option SegDetail
  ret : Option Unit
deriving DecidableEq, Repr

/-- `Segment.update` (src/segment.ts lines 58-102) up to the deferred
dispatch: the attached/name no-op guard, the state reset, and the event
construction. -/
def segmentUpdate (st : SegState) (connected : Bool) (p : SegParams) : SegUpOut :=
  if st.name = some p.name ∧ (st.attached = true ∨ connected = false) then
    ⟨st, none, none⟩
  else
    ⟨{ attached := false, name := some p.name }, some (mkDetail p), some ()⟩

/-- Deferred dispatch loop `queueDispatch` of `Segment.update`: `ticks` is
the sequence of `element.isConnected` observations at successive microtask
checks, and `ack` abstracts whether dispatching the event leads some
ancestor timeline listener to invoke the `attached()` callback.  The result
is `none` while every observed tick reported disconnected (the dispatch is
still queued), and otherwise the outcome at the first connected tick:
`ok` when acknowledged, or the "`segment` directive must be below an
element with a `timeline` directive." error. -/
def queueDispatch (ticks : List Bool) (ack : Bool) : Option (Except String Unit) :=
  match ticks with
  | [] => none
  | c :: rest =>
    if c then
      some (if ack then .ok () else .error
        "segment directive must be below an element with a timeline directive")
    else
      queueDispatch rest ack

/-! Single-element animator (src/animate.ts, class `Animate`). -/

/-- Options accepted by the `animate` directive (`AnimateOptions`): an
opaque engine payload and an optional `finished` callback (by id).  Fields
are `Option` so that the JS spread-merge of variant options under explicit
options can be modelled field-wise. -/
structure AnOpts where
  payload : Option Nat
  finished : Option Nat
deriving DecidableEq, Repr

/-- JS spread merge `{...variantOptions, ...options}`: each field of the
explicit options, when present, overrides the variant-supplied one. -/
def mergeOpts (v : Option AnOpts) (e : Option AnOpts) : AnOpts :=
  { payload := ((e.bind (·.payload)).orElse fun _ => v.bind (·.payload)),
    finished := ((e.bind (·.finished)).orElse fun _ => v.bind (·.finished)) }

/-- One entry of a variant table: either a direct
`{keyframes, options?}` record or a context-dependent function. -/
inductive VariantDef where
  | obj (kf : Nat) (opts : Option AnOpts)
  | fn (f : Nat → Nat × Option AnOpts)

/-- Parameters of one `animate(...)` binding (`AnimateParameters`):
either the simple form or the variant form (`"variants" in parameters`
discriminates). -/
inductive AnParams where
  | simple (kf : Nat) (options : Option AnOpts)
  | withVariants (variants : List (Name × VariantDef)) (key : Name)
      (context : Option Nat) (options : Option AnOpts)

/-- State of one `Animate` directive instance (private fields of class
`Animate`), plus the lit connection flag.  `nextId` supplies fresh ids for
engine playback controls. -/
structure AnState where
  connected : Bool
  variant : Option Name
  controls : Option Nat
  nextId : Nat
  finishSet : Bool
  finishPending : Bool
deriving DecidableEq, Repr

/-- Initial state of a freshly constructed `Animate` directive. -/
def anInit : AnState :=
  { connected := true, variant := none, controls := none, nextId := 0,
    finishSet := false, finishPending := false }

/-- Calls made by `Animate.update` to the Motion engine: `controls.stop()`
on the previous animation, and `motionAnimate(element, keyframes, options)`. -/
inductive EngCall where
  | stop (c : Nat)
  | animate (kf : Nat) (opts : Option AnOpts)
deriving DecidableEq, Repr

/-- Errors thrown by `Animate.update`. -/
inductive AnErr where
  /-- `The variant "..." does not exist on the element` -/
  | unknownVariant (k : Name)
  /-- `The variant "..." requires a context` -/
  | missingContext (k : Name)
deriving DecidableEq, Repr

/-- Result of one `Animate.update` invocation: new state, engine calls in
order, and the JS return value (`some ()` for `noChange`, `none` for
`undefined`). -/
structure AnOut where
  state : AnState
  calls : List EngCall
  ret : Option Unit

/-- Record lookup `parameters.variants[key]`. -/
def lookupVariant (vs : List (Name × VariantDef)) (k : Name) : Option VariantDef :=
  (vs.find? (fun p => p.1 = k)).map (·.2)

/-- Tail of `Animate.update` from `motionAnimate` on: request controls,
arm the finished waiter when a callback is present (fresh controls
autoplay, so `playState !== "idle"`), store the controls, return
`noChange`.  `pre` carries the `stop()` call of the variant path. -/
def animateStart (st : AnState) (pre : List EngCall) (kf : Nat)
    (opts : Option AnOpts) : AnOut :=
  let hasFin := (opts.bind (·.finished)).isSome
  { state := { st with
      controls := some st.nextId, nextId := st.nextId + 1,
      finishSet := if hasFin then true else st.finishSet,
      finishPending := if hasFin then true else st.finishPending },
    calls := pre ++ [.animate kf opts],
    ret := some () }

/-- `Animate.update` (src/animate.ts lines 73-137): the disconnected
guard, the variant-keyed path (same-key no-op, table lookup, context
function, options merge, stop of the previous animation) and the simple
path (already-animating no-op), followed by the engine start. -/
def animateUpdate (st : AnState) (p : AnParams) : Except AnErr AnOut :=
  if st.connected = false then .ok ⟨st, [], none⟩
  else
    match p with
    | .withVariants vs key ctx opts =>
      if st.variant = some key then .ok ⟨st, [], none⟩
      else
        match lookupVariant vs key with
        | none => .error (.unknownVariant key)
        | some vd =>
          let resolved : Except AnErr (Nat × Option AnOpts) :=
            match vd with
            | .obj kf vopts => .ok (kf, vopts)
            | .fn f =>
              match ctx with
              | none => .error (.missingContext key)
              | some c => .ok (f c)
          match resolved with
          | .error e => .error e
          | .ok (kf, vopts) =>
            let merged := some (mergeOpts vopts opts)
            let pre := match st.controls with
              | some c => [EngCall.stop c]
              | none => []
            .ok (animateStart { st with variant := some key } pre kf merged)
    | .simple kf opts =>
      if st.controls ≠ none then .ok ⟨st, [], none⟩
      else .ok (animateStart st [] kf opts)

/-! Finished-callback lifecycle. Both `Animate` (src/animate.ts lines
116-134 and 150-165) and `Timeline` (src/timeline.ts lines 97-114 and
128-143) run the same discipline around an armed `finished` callback:
an async waiter `#finish` awaits `controls.finished`, invokes the callback
and resets `#finishPromise` to its sentinel; `disconnected()` cancels the
playback; `reconnected()` plays and re-invokes `#finish` only when
`#finishPromise` holds the sentinel. -/

/-- Completion signal of the current playback run: pending, resolved
(natural completion), or cancelled — the signal of a cancelled run is
defined never to resolve, and the promise captured by an in-flight waiter
rejects. -/
inductive Sig where
  | pending
  | resolved
  | cancelled
deriving DecidableEq, Repr

/-- State of the `#finishPromise` field: the `false`/`null` sentinel
(`notPending`), a live waiter awaiting the current run's signal, or a
settled-without-firing promise left behind by a cancellation — the code
never resets it to the sentinel in that case, so re-arming is blocked. -/
inductive FP where
  | notPending
  | live
  | stuck
deriving DecidableEq, Repr

/-- State of the finished-callback lifecycle after an animation with a
`finished` callback has started: the current run's completion signal, the
`#finishPromise` state, and how many times the callback has fired. -/
structure FinState where
  sig : Sig
  fp : FP
  fires : Nat
deriving DecidableEq, Repr

/-- Lifecycle state right after a start with a callback: autoplay means
`playState !== "idle"`, so the waiter is armed immediately. -/
def finInit : FinState := ⟨.pending, .live, 0⟩

/-- Events of the finished-callback lifecycle: the engine's natural
completion, and the directive's disconnect (`controls.cancel()`) and
reconnect (`controls.play()` then conditional re-arming). -/
inductive FinEvent where
  | complete
  | disconnect
  | reconnect
deriving DecidableEq, Repr

/-- One lifecycle step.  Completion resolves a pending signal and lets a
live waiter fire the callback and reset `#finishPromise`.  Disconnection
cancels a pending run: its signal will never resolve and a live waiter's
awaited promise rejects, leaving `#finishPromise` stuck.  Reconnection
plays — restarting a cancelled or finished run, whose signal becomes
pending again — and re-invokes `#finish` only from the sentinel state. -/
def finStep (st : FinState) (e : FinEvent) : FinState :=
  match e with
  | .complete =>
    match st.sig with
    | .pending =>
      match st.fp with
      | .live => ⟨.resolved, .notPending, st.fires + 1⟩
      | f => ⟨.resolved, f, st.fires⟩
    | _ => st
  | .disconnect =>
    match st.sig with
    | .pending => ⟨.cancelled, if st.fp = .live then .stuck else st.fp, st.fires⟩
    | _ => st
  | .reconnect =>
    match st.fp with
    | .notPending => ⟨.pending, .live, st.fires⟩
    | f => ⟨.pending, f, st.fires⟩

/-- Run of the finished-callback lifecycle over an event trace. -/
def finRun (st : FinState) (evs : List FinEvent) : FinState :=
  evs.foldl finStep st

/-! Measurement adapter: function `measure` of the alternate animate
implementation (src/unnamed/part_002, lines 209-260), which resolves
symbolic "auto" geometry endpoints before engine invocation. -/

/-- The fixed set of geometric properties scanned by `measure`. -/
inductive Attr where
  | width
  | height
  | top
  | left
  | right
  | bottom
deriving DecidableEq, Repr

/-- Scan order of `measure`'s `for ... of` loop. -/
def scanOrder : List Attr := [.width, .height, .top, .left, .right, .bottom]

/-- One property's entry in a keyframe definition: absent, a single value,
or an array of values. -/
inductive KFEntry where
  | absent
  | single (v : String)
  | arr (vs : List String)
deriving DecidableEq, Repr

/-- Keyframe definition restricted to the scanned geometric properties. -/
def Keyframes : Type := Attr → KFEntry

/-- Inline style of the element, one value per scanned property. -/
def Style : Type := Attr → String

/-- Inline style write `element.style[attr] = v`. -/
def styleSet (s : Style) (a : Attr) (v : String) : Style :=
  fun x => if x = a then v else s x

/-- Keyframes write `keyframes[attr] = e` (also used for the in-place
array mutation `keyframe[keyframe.length - 1] = value`). -/
def kfSet (k : Keyframes) (a : Attr) (e : KFEntry) : Keyframes :=
  fun x => if x = a then e else k x

/-- Replace the last element of a list (used for
`keyframe[keyframe.length - 1] = value` on a nonempty array). -/
def setLast (vs : List String) (v : String) : List String :=
  vs.set (vs.length - 1) v

/-- Terminal keyframe value of an entry: the value itself for a single
value, the last element for an array, nothing when absent. -/
def terminal : KFEntry → Option String
  | .absent => none
  | .single v => some v
  | .arr vs => vs.getLast?

/-- Whether an entry makes `measure` return early: an array keyframe whose
last element is not `"auto"` (for an empty array,
`keyframe[keyframe.length - 1]` reads `undefined`, which is not
`"auto"` either). -/
def aborting : KFEntry → Bool
  | .arr vs => ¬ vs.getLast? = some "auto"
  | _ => false

/-- Substitution performed on a terminal-"auto" entry: the measured value
becomes the single value, or the new last array element. -/
def substEntry (e : KFEntry) (m : String) : KFEntry :=
  match e with
  | .absent => .absent
  | .single _ => .single m
  | .arr vs => .arr (setLast vs m)

/-- Helper `getMeasuredValue` of `measure`: record the inline style, apply
the candidate value, read the computed value (`computed` models
`window.getComputedStyle` as a function of the inline style), restore the
inline style, push a finish handler re-applying the candidate value, and
return the measurement.  The net inline style is unchanged. -/
def getMeasuredValue (computed : Style → Attr → String) (style : Style)
    (a : Attr) (kf : String) : String × (Attr × String) :=
  let applied := styleSet style a kf
  (computed applied a, (a, kf))

/-- Body of `measure`'s scan over `attrs`: for each present property,
first replace an `"auto"` inline style by its computed value, then either
measure the terminal `"auto"` keyframe (single or array form), skip a
non-"auto" single value, or — for an array whose last element is not
`"auto"` — return early, abandoning the remaining properties. -/
def measureGo (computed : Style → Attr → String) :
    List Attr → Style → Keyframes → List (Attr × String) →
    Style × Keyframes × List (Attr × String)
  | [], style, kfs, handlers => (style, kfs, handlers)
  | a :: rest, style, kfs, handlers =>
    match kfs a with
    | .absent => measureGo computed rest style kfs handlers
    | e =>
      let style1 := if style a = "auto" then styleSet style a (computed style a) else style
      match e with
      | .absent => measureGo computed rest style1 kfs handlers
      | .arr vs =>
        match vs.getLast? with
        | some v =>
          if v = "auto" then
            let m := getMeasuredValue computed style1 a v
            measureGo computed rest style1 (kfSet kfs a (.arr (setLast vs m.1)))
              (handlers ++ [m.2])
          else (style1, kfs, handlers)
        | none => (style1, kfs, handlers)
      | .single v =>
        if v = "auto" then
          let m := getMeasuredValue computed style1 a v
          measureGo computed rest style1 (kfSet kfs a (.single m.1))
            (handlers ++ [m.2])
        else measureGo computed rest style1 kfs handlers

/-- Function `measure(part, keyframes, finishHandlers)` over the six
scanned properties, starting from the caller's (empty) handler list. -/
def measure (computed : Style → Attr → String) (style : Style)
    (kfs : Keyframes) : Style × Keyframes × List (Attr × String) :=
  measureGo computed scanOrder style kfs []

/-- Measured value substituted for property `a` when the inline style
carries no "auto" values: the computed value read with `"auto"` applied to
`a` over the otherwise-unchanged inline style. -/
def measuredVal (computed : Style → Attr → String) (style : Style) (a : Attr) : String :=
  computed (styleSet style a "auto") a

/-! Lemmas about the JS sparse-array model. -/

theorem length_arrSet (l : List (Option Nat)) (i v : Nat) :
    (arrSet l i v).length = max l.length (i + 1) := by
  unfold arrSet
  simp only [List.length_set, List.length_append, List.length_replicate]
  omega

theorem length_setLength (l : List (Option Nat)) (n : Nat) :
    (setLength l n).length = n := by
  unfold setLength
  simp only [List.length_append, List.length_take, List.length_replicate]
  omega

theorem arrGet_arrSet (l : List (Option Nat)) (i v j : Nat) :
    arrGet (arrSet l i v) j = if j = i then some v else arrGet l j := by
  unfold arrGet arrSet
  simp only [List.getD_eq_getElem?_getD, List.getElem?_set, List.length_append,
    List.length_replicate]
  by_cases h : j = i
  · subst h
    have hi : j < l.length + (j + 1 - l.length) := by omega
    simp [hi]
  · have h' : i ≠ j := fun e => h e.symm
    simp only [if_neg h', if_neg h]
    by_cases hj : j < l.length
    · simp [List.getElem?_append, hj]
    · rw [List.getElem?_append_right (by omega), List.getElem?_replicate,
        List.getElem?_eq_none (by omega)]
      split <;> rfl

theorem arrGet_setLength (l : List (Option Nat)) (n j : Nat) :
    arrGet (setLength l n) j = if j < n then arrGet l j else none := by
  unfold arrGet setLength
  simp only [List.getD_eq_getElem?_getD, List.getElem?_append, List.length_take,
    List.getElem?_take, List.getElem?_replicate]
  by_cases hj : j < n
  · by_cases hl : j < l.length
    · simp [hj, hl, Nat.lt_min.mpr ⟨hj, hl⟩]
    · have hmin : ¬ j < min n l.length := by omega
      simp only [if_neg hmin, if_pos hj]
      rw [List.getElem?_eq_none (l := l) (by omega)]
      have : min n l.length = l.length := by omega
      rw [this]
      split <;> rfl
  · have hmin : ¬ j < min n l.length := by omega
    simp only [if_neg hmin, if_neg hj]
    have : ¬ j - min n l.length < n - l.length := by omega
    rw [if_neg this]
    rfl

theorem countFilled_le_length (l : List (Option Nat)) : countFilled l ≤ l.length :=
  List.countP_le_length _

theorem countFilled_replicate_none (k : Nat) :
    countFilled (List.replicate k (none : Option Nat)) = 0 := by
  induction k with
  | zero => rfl
  | succ n ih =>
    unfold countFilled at *
    rw [List.replicate_succ, List.countP_cons]
    simp [ih]

theorem countFilled_append_replicate (l : List (Option Nat)) (k : Nat) :
    countFilled (l ++ List.replicate k none) = countFilled l := by
  unfold countFilled
  rw [List.countP_append]
  have := countFilled_replicate_none k
  unfold countFilled at this
  omega

theorem countFilled_arrSet (l : List (Option Nat)) (i v : Nat)
    (h : arrGet l i = none) : countFilled (arrSet l i v) = countFilled l + 1 := by
  have hlen : i < (l ++ List.replicate (i + 1 - l.length) (none : Option Nat)).length := by
    simp only [List.length_append, List.length_replicate]; omega
  unfold arrSet countFilled
  rw [List.countP_set _ _ _ _ hlen]
  have hpad : (l ++ List.replicate (i + 1 - l.length) (none : Option Nat))[i] = none := by
    have h2 := List.getElem?_eq_getElem hlen
    rw [List.getElem?_append] at h2
    by_cases hl : i < l.length
    · rw [if_pos hl] at h2
      unfold arrGet at h
      rw [List.getD_eq_getElem?_getD, List.getElem?_eq_getElem hl] at h
      simp only [Option.getD_some] at h
      rw [List.getElem?_eq_getElem hl, h] at h2
      exact (Option.some_injective _ h2.symm)
    · rw [if_neg hl, List.getElem?_replicate, if_pos (by omega)] at h2
      exact (Option.some_injective _ h2.symm)
  rw [hpad]
  have hc := countFilled_append_replicate l (i + 1 - l.length)
  unfold countFilled at hc
  simp only [Option.isSome_none, Bool.false_eq_true, if_false, Nat.sub_zero,
    Option.isSome_some, if_true]
  omega

theorem countFilled_setLength_of_le (l : List (Option Nat)) (n : Nat)
    (h : l.length ≤ n) : countFilled (setLength l n) = countFilled l := by
  unfold setLength
  rw [List.take_of_length_le h]
  exact countFilled_append_replicate l (n - l.length)

theorem countFilled_lt_of_hole (l : List (Option Nat)) (j : Nat)
    (hj : j < l.length) (h : arrGet l j = none) : countFilled l < l.length := by
  have hval : l[j] = none := by
    unfold arrGet at h
    rw [List.getD_eq_getElem?_getD, List.getElem?_eq_getElem hj] at h
    simpa using h
  have hmem : (none : Option Nat) ∈ l := hval ▸ List.getElem_mem hj
  unfold countFilled
  rw [List.countP_eq_length_filter]
  rw [List.length_filter_lt_length_iff_exists]
  exact ⟨none, hmem, by simp⟩

/-! Structural lemmas about the timeline update and listener. -/

theorem tlUpdateBody_spec (st : TimelineState) (o : Option TLOptions) :
    (tlUpdateBody st o).state.segments = st.segments ∧
    (tlUpdateBody st o).state.segmentsCount = st.segmentsCount ∧
    (tlUpdateBody st o).state.segmentsLength = st.segmentsLength ∧
    (tlUpdateBody st o).state.listenerAdded = st.listenerAdded ∧
    (tlUpdateBody st o).state.capturedOptions = st.capturedOptions ∧
    (tlUpdateBody st o).state.connected = st.connected ∧
    (∀ a oo, (tlUpdateBody st o).call = some (a, oo) → a = st.segments ∧ oo = o) ∧
    (((tlUpdateBody st o).call = none ∧ (tlUpdateBody st o).state.controls = st.controls) ∨
      (st.controls = none ∧ (tlUpdateBody st o).state.controls = some () ∧
        (tlUpdateBody st o).call ≠ none)) := by
  unfold tlUpdateBody
  split
  · exact ⟨rfl, rfl, rfl, rfl, rfl, rfl, by simp, Or.inl ⟨rfl, rfl⟩⟩
  · rename_i h
    push_neg at h
    refine ⟨rfl, rfl, rfl, rfl, rfl, rfl, ?_, Or.inr ⟨h.2.2, rfl, by simp⟩⟩
    intro a oo hc
    have hc' : (st.segments, o) = (a, oo) := Option.some_injective _ hc
    exact ⟨(congrArg Prod.fst hc').symm, (congrArg Prod.snd hc').symm⟩

theorem tlUpdate_spec (st : TimelineState) (o : Option TLOptions) :
    (tlUpdate st o).state.segments = st.segments ∧
    (tlUpdate st o).state.segmentsCount = st.segmentsCount ∧
    (tlUpdate st o).state.segmentsLength = st.segmentsLength ∧
    (tlUpdate st o).state.connected = st.connected ∧
    (∀ a oo, (tlUpdate st o).call = some (a, oo) → a = st.segments ∧ oo = o) ∧
    (((tlUpdate st o).call = none ∧ (tlUpdate st o).state.controls = st.controls) ∨
      (st.controls = none ∧ (tlUpdate st o).state.controls = some () ∧
        (tlUpdate st o).call ≠ none)) ∧
    (st.listenerAdded = true →
      (tlUpdate st o).state.listenerAdded = true ∧
      (tlUpdate st o).state.capturedOptions = st.capturedOptions) := by
  unfold tlUpdate
  split
  · rename_i hl
    have h := tlUpdateBody_spec st o
    exact ⟨h.1, h.2.1, h.2.2.1, h.2.2.2.2.2.1, h.2.2.2.2.2.2.1, h.2.2.2.2.2.2.2,
      fun _ => ⟨hl ▸ h.2.2.2.1, h.2.2.2.2.1⟩⟩
  · rename_i hl
    have h := tlUpdateBody_spec { st with listenerAdded := true, capturedOptions := o } o
    exact ⟨h.1, h.2.1, h.2.2.1, h.2.2.2.2.2.1, h.2.2.2.2.2.2.1, h.2.2.2.2.2.2.2,
      fun htrue => absurd htrue (by simpa using hl)⟩

theorem listenerStore_ok_spec (st : TimelineState) (d : SegDetail)
    (st2 : TimelineState) (h : listenerStore st d = .ok st2) :
    arrGet st.segments d.index = none ∧
    st2.segments = (if d.endM then
      setLength (arrSet st.segments d.index d.segId) (d.index + 1)
      else arrSet st.segments d.index d.segId) ∧
    st2.segmentsCount = st.segmentsCount + 1 ∧
    st2.segmentsLength = (if d.endM then some (d.index + 1) else st.segmentsLength) ∧
    (d.endM = true → st.segmentsLength = none) ∧
    st2.controls = st.controls ∧ st2.connected = st.connected ∧
    st2.listenerAdded = st.listenerAdded ∧
    st2.capturedOptions = st.capturedOptions := by
  unfold listenerStore at h
  by_cases hdup : arrGet st.segments d.index ≠ none
  · rw [if_pos hdup] at h
    exact absurd h (by simp)
  · rw [if_neg hdup] at h
    simp only at h
    have hfree : arrGet st.segments d.index = none := not_not.mp hdup
    by_cases hend : d.endM = true
    · rw [if_pos hend] at h
      by_cases hlen : st.segmentsLength ≠ none
      · rw [if_pos (by simpa using hlen)] at h
        exact absurd h (by simp)
      · rw [if_neg (by simpa using hlen)] at h
        have h2 : _ = st2 := Except.ok.inj h
        subst h2
        refine ⟨hfree, by simp [hend], rfl, by simp [hend], fun _ => not_not.mp hlen,
          rfl, rfl, rfl, rfl⟩
    · rw [if_neg hend] at h
      have h2 : _ = st2 := Except.ok.inj h
      subst h2
      refine ⟨hfree, by simp [hend], rfl, by simp [hend], fun he => absurd he hend,
        rfl, rfl, rfl, rfl⟩

theorem listenerBody_handled_spec (st : TimelineState) (d : SegDetail)
    (st' : TimelineState) (c : Option EngineCall)
    (hl : st.listenerAdded = true)
    (h : listenerBody st d = .handled st' c) :
    st.controls = none ∧
    (∀ a oo, c = some (a, oo) → a = st'.segments ∧ oo = st.capturedOptions) ∧
    ((c = none ∧ st'.controls = none) ∨ (st'.controls = some () ∧ c ≠ none)) ∧
    (∀ i s, arrGet st'.segments i = some s →
      arrGet st.segments i = some s ∨ (i = d.index ∧ s = d.segId)) ∧
    st'.connected = st.connected ∧
    st'.listenerAdded = true ∧
    st'.capturedOptions = st.capturedOptions := by
  unfold listenerBody at h
  by_cases hname : d.name ≠ st.capturedOptions.bind fun x => x.name
  · rw [if_pos hname] at h
    exact absurd h (by simp)
  · rw [if_neg hname] at h
    by_cases hctl : st.controls ≠ none
    · rw [if_pos hctl] at h
      exact absurd h (by simp)
    · rw [if_neg hctl] at h
      have hctl' : st.controls = none := not_not.mp hctl
      cases hstore : listenerStore st d with
      | error e =>
        rw [hstore] at h
        exact absurd h (by simp)
      | ok st2 =>
        rw [hstore] at h
        simp only [LOut.handled.injEq] at h
        obtain ⟨hst', hc⟩ := h
        subst hst' hc
        have hs2 := listenerStore_ok_spec st d st2 hstore
        have hu := tlUpdate_spec st2 st.capturedOptions
        have hl2 : st2.listenerAdded = true := hs2.2.2.2.2.2.2.2.1 ▸ hl
        refine ⟨hctl', ?_, ?_, ?_, ?_, ?_, ?_⟩
        · intro a oo hco
          have h3 := hu.2.2.2.2.1 a oo hco
          exact ⟨h3.1.symm ▸ hu.1.symm, h3.2⟩
        · rcases hu.2.2.2.2.2.1 with ⟨h1, h2⟩ | ⟨h1, h2, h3⟩
          · exact Or.inl ⟨h1, h2.trans (hs2.2.2.2.2.2.1.trans hctl')⟩
          · exact Or.inr ⟨h2, h3⟩
        · intro i s hs
          rw [hu.1, hs2.2.1] at hs
          by_cases hend : d.endM = true
          · rw [if_pos hend, arrGet_setLength] at hs
            by_cases hi : i < d.index + 1
            · rw [if_pos hi, arrGet_arrSet] at hs
              by_cases hieq : i = d.index
              · rw [if_pos hieq] at hs
                exact Or.inr ⟨hieq, (Option.some_injective _ hs).symm⟩
              · rw [if_neg hieq] at hs
                exact Or.inl hs
            · rw [if_neg hi] at hs
              exact absurd hs (by simp)
          · rw [if_neg hend, arrGet_arrSet] at hs
            by_cases hieq : i = d.index
            · rw [if_pos hieq] at hs
              exact Or.inr ⟨hieq, (Option.some_injective _ hs).symm⟩
            · rw [if_neg hieq] at hs
              exact Or.inl hs
        · rw [hu.2.2.2.1, hs2.2.2.2.2.2.2.1]
        · exact (hu.2.2.2.2.2.2 hl2).1
        · rw [(hu.2.2.2.2.2.2 hl2).2, hs2.2.2.2.2.2.2.2.2]

theorem tlStep_spec (st : TimelineState) (e : TLEvent) (st' : TimelineState)
    (c : Option EngineCall) (h : tlStep st e = .ok (st', c)) :
    ((c = none ∧ st'.controls = st.controls) ∨
      (st.controls = none ∧ st'.controls = some () ∧ c ≠ none)) ∧
    (∀ a oo, c = some (a, oo) → a = st'.segments) ∧
    (∀ i s, arrGet st'.segments i = some s →
      arrGet st.segments i = some s ∨
        ∃ d : SegDetail, e = .segEvt d ∧ d.index = i ∧ d.segId = s) ∧
    (st.listenerAdded = true → st'.listenerAdded = true ∧
      st'.capturedOptions = st.capturedOptions) := by
  cases e with
  | update o =>
    simp only [tlStep, Except.ok.injEq, Prod.mk.injEq] at h
    obtain ⟨hst', hc⟩ := h
    subst hst' hc
    have hu := tlUpdate_spec st o
    refine ⟨?_, ?_, ?_, hu.2.2.2.2.2.2⟩
    · rcases hu.2.2.2.2.2.1 with ⟨h1, h2⟩ | ⟨h1, h2, h3⟩
      · exact Or.inl ⟨h1, h2⟩
      · exact Or.inr ⟨h1, h2, h3⟩
    · intro a oo hco
      exact (hu.2.2.2.2.1 a oo hco).1.symm ▸ hu.1.symm
    · intro i s hs
      rw [hu.1] at hs
      exact Or.inl hs
  | setConn b =>
    simp only [tlStep, Except.ok.injEq, Prod.mk.injEq] at h
    obtain ⟨hst', hc⟩ := h
    subst hst' hc
    exact ⟨Or.inl ⟨rfl, rfl⟩, by simp, fun i s hs => Or.inl hs, fun hl => ⟨hl, rfl⟩⟩
  | segEvt d =>
    simp only [tlStep] at h
    by_cases hl : st.listenerAdded = false
    · rw [if_pos hl] at h
      simp only [Except.ok.injEq, Prod.mk.injEq] at h
      obtain ⟨hst', hc⟩ := h
      subst hst' hc
      exact ⟨Or.inl ⟨rfl, rfl⟩, by simp, fun i s hs => Or.inl hs,
        fun htrue => absurd htrue (by simp [hl])⟩
    · rw [if_neg hl] at h
      have hl' : st.listenerAdded = true := by
        cases hla : st.listenerAdded
        · exact absurd hla hl
        · rfl
      cases hlb : listenerBody st d with
      | ignored =>
        rw [hlb] at h
        simp only [Except.ok.injEq, Prod.mk.injEq] at h
        obtain ⟨hst', hc⟩ := h
        subst hst' hc
        exact ⟨Or.inl ⟨rfl, rfl⟩, by simp, fun i s hs => Or.inl hs, fun hla => ⟨hla, rfl⟩⟩
      | threw err =>
        rw [hlb] at h
        exact absurd h (by simp)
      | handled stH cH =>
        rw [hlb] at h
        simp only [Except.ok.injEq, Prod.mk.injEq] at h
        obtain ⟨hst', hc⟩ := h
        subst hst' hc
        have hspec := listenerBody_handled_spec st d _ _ hl' hlb
        refine ⟨?_, ?_, ?_, fun _ => ⟨hspec.2.2.2.2.2.1, hspec.2.2.2.2.2.2⟩⟩
        · rcases hspec.2.2.1 with ⟨h1, h2⟩ | ⟨h1, h2⟩
          · exact Or.inl ⟨h1, h2.trans hspec.1.symm⟩
          · exact Or.inr ⟨hspec.1, h1, h2⟩
        · intro a oo hco
          exact (hspec.2.1 a oo hco).1
        · intro i s hs
          rcases hspec.2.2.2.1 i s hs with h0 | ⟨hi, hsid⟩
          · exact Or.inl h0
          · exact Or.inr ⟨d, rfl, hi.symm, hsid.symm⟩

theorem tlRun_calls_le (evs : List TLEvent) : ∀ st : TimelineState,
    ((tlRun st evs).2.length + (if st.controls = none then 0 else 1)) ≤ 1 := by
  induction evs with
  | nil =>
    intro st
    simp only [tlRun, List.length_nil]
    split <;> omega
  | cons e evs ih =>
    intro st
    cases hstep : tlStep st e with
    | error err =>
      simp only [tlRun, hstep, List.length_nil]
      split <;> omega
    | ok p =>
      obtain ⟨st', c⟩ := p
      have hspec := (tlStep_spec st e st' c hstep).1
      have hih := ih st'
      simp only [tlRun, hstep, List.length_append]
      rcases hspec with ⟨hc, hctl⟩ | ⟨hc0, hcs, hcne⟩
      · subst hc
        simp only [Option.toList_none, List.length_nil]
        rw [← hctl]
        omega
      · rw [hc0, if_pos rfl]
        rw [hcs, if_neg (by simp)] at hih
        cases c with
        | none => exact absurd rfl hcne
        | some x =>
          simp only [Option.toList_some, List.length_singleton]
          omega

theorem tlRun_slots (evs : List TLEvent) : ∀ (st : TimelineState)
    (a : List (Option Nat)) (o : Option TLOptions) (i s : Nat),
    (a, o) ∈ (tlRun st evs).2 → arrGet a i = some s →
    arrGet st.segments i = some s ∨
      ∃ d : SegDetail, TLEvent.segEvt d ∈ evs ∧ d.index = i ∧ d.segId = s := by
  induction evs with
  | nil =>
    intro st a o i s hmem _
    simp [tlRun] at hmem
  | cons e evs ih =>
    intro st a o i s hmem hslot
    cases hstep : tlStep st e with
    | error err =>
      simp [tlRun, hstep] at hmem
    | ok p =>
      obtain ⟨st', c⟩ := p
      simp only [tlRun, hstep, List.mem_append] at hmem
      have hspec := tlStep_spec st e st' c hstep
      cases hmem with
      | inl hc =>
        have hcs : c = some (a, o) := by
          cases c with
          | none => simp [Option.toList] at hc
          | some x =>
            simp only [Option.toList_some, List.mem_singleton] at hc
            rw [hc]
        have ha : a = st'.segments := hspec.2.1 a o hcs
        subst ha
        rcases hspec.2.2.1 i s hslot with h0 | ⟨d, hd, hdi, hds⟩
        · exact Or.inl h0
        · exact Or.inr ⟨d, by simp [hd], hdi, hds⟩
      | inr hrest =>
        rcases ih st' a o i s hrest hslot with h0 | ⟨d, hd, hdi, hds⟩
        · rcases hspec.2.2.1 i s h0 with h1 | ⟨d, hd, hdi, hds⟩
          · exact Or.inl h1
          · exact Or.inr ⟨d, by simp [hd], hdi, hds⟩
        · exact Or.inr ⟨d, by simp [hd], hdi, hds⟩

theorem tlUpdateBody_call_iff (st : TimelineState) (o : Option TLOptions) :
    ((tlUpdateBody st o).call).isSome = true ↔
      (st.segmentsLength = some st.segmentsCount ∧ st.connected = true ∧
        st.controls = none) := by
  unfold tlUpdateBody
  split
  · rename_i h
    simp only [Option.isSome_none, Bool.false_eq_true, false_iff]
    intro ⟨h1, h2, h3⟩
    rcases h with h0 | h0 | h0
    · exact h0 h1
    · rw [h2] at h0; exact Bool.noConfusion h0
    · exact h0 h3
  · rename_i h
    push_neg at h
    simp only [Option.isSome_some, true_iff]
    exact ⟨h.1, Bool.ne_false_iff.mp h.2.1, h.2.2⟩

theorem tlUpdate_call_iff (st : TimelineState) (o : Option TLOptions) :
    ((tlUpdate st o).call).isSome = true ↔
      (st.segmentsLength = some st.segmentsCount ∧ st.connected = true ∧
        st.controls = none) := by
  unfold tlUpdate
  split
  · exact tlUpdateBody_call_iff st o
  · simpa using tlUpdateBody_call_iff
      { st with listenerAdded := true, capturedOptions := o } o

theorem tlUpdate_install (st : TimelineState) (o : Option TLOptions)
    (hl : st.listenerAdded = false) :
    (tlUpdate st o).state.listenerAdded = true ∧
    (tlUpdate st o).state.capturedOptions = o := by
  unfold tlUpdate
  rw [if_neg (by simp [hl])]
  have h := tlUpdateBody_spec { st with listenerAdded := true, capturedOptions := o } o
  exact ⟨h.2.2.2.1, h.2.2.2.2.1⟩

theorem goodState_not_ready (N j : Nat) (st : TimelineState) (hj : j < N)
    (h : goodState N j st) : st.segmentsLength ≠ some st.segmentsCount := by
  obtain ⟨-, hlen, hbound, hcount, hslots⟩ := h
  have hfill : countFilled st.segments < N := by
    rcases Nat.lt_or_ge st.segments.length N with hl | hl
    · exact lt_of_le_of_lt (countFilled_le_length _) hl
    · have hLen : st.segments.length = N := le_antisymm hbound hl
      have hhole : arrGet st.segments j = none := by
        by_contra hne
        exact (hslots j hne).2 rfl
      have := countFilled_lt_of_hole st.segments j (by omega) hhole
      omega
  rcases hlen with h0 | h0
  · simp [h0]
  · rw [h0, hcount]
    intro heq
    have := (Option.some_injective _ heq)
    omega

theorem tlUpdate_gap_preserve (N j : Nat) (hj : j < N) (st : TimelineState)
    (o : Option TLOptions) (hst : goodState N j st) :
    (tlUpdate st o).call = none ∧ goodState N j (tlUpdate st o).state := by
  have hni := goodState_not_ready N j st hj hst
  have hcall : (tlUpdate st o).call = none := by
    cases hc : (tlUpdate st o).call with
    | none => rfl
    | some x =>
      have hs : ((tlUpdate st o).call).isSome = true := by rw [hc]; rfl
      exact absurd ((tlUpdate_call_iff st o).mp hs).1 hni
  have hu := tlUpdate_spec st o
  have hctl : (tlUpdate st o).state.controls = st.controls := by
    rcases hu.2.2.2.2.2.1 with ⟨-, h2⟩ | ⟨-, -, h3⟩
    · exact h2
    · exact absurd hcall h3
  obtain ⟨g1, g2, g3, g4, g5⟩ := hst
  exact ⟨hcall, by rw [hctl]; exact g1, by rw [hu.2.2.1]; exact g2,
    by rw [hu.1]; exact g3, by rw [hu.2.1, hu.1]; exact g4,
    by rw [hu.1]; exact g5⟩

theorem listenerStore_gap_preserve (N j : Nat) (hj : j < N)
    (st : TimelineState) (d : SegDetail) (st2 : TimelineState)
    (hst : goodState N j st)
    (hd : d.index < N ∧ d.index ≠ j ∧ (d.endM = true → d.index + 1 = N))
    (h : listenerStore st d = .ok st2) : goodState N j st2 := by
  have hs := listenerStore_ok_spec st d st2 h
  obtain ⟨g1, g2, g3, g4, g5⟩ := hst
  obtain ⟨hfree, hsegs, hcnt, hlen, hend0, hctl, -, -, -⟩ := hs
  refine ⟨hctl.trans g1, ?_, ?_, ?_, ?_⟩
  · rw [hlen]
    by_cases hend : d.endM = true
    · rw [if_pos hend, hd.2.2 hend]
      exact Or.inr rfl
    · rw [if_neg hend]
      exact g2
  · rw [hsegs]
    by_cases hend : d.endM = true
    · rw [if_pos hend, length_setLength]
      omega
    · rw [if_neg hend, length_arrSet]
      omega
  · rw [hcnt, hsegs, g4]
    by_cases hend : d.endM = true
    · rw [if_pos hend, countFilled_setLength_of_le, countFilled_arrSet _ _ _ hfree]
      rw [length_arrSet]
      have := hd.2.2 hend
      omega
    · rw [if_neg hend, countFilled_arrSet _ _ _ hfree]
  · intro i hi
    rw [hsegs] at hi
    by_cases hend : d.endM = true
    · rw [if_pos hend, arrGet_setLength] at hi
      by_cases hlt : i < d.index + 1
      · rw [if_pos hlt, arrGet_arrSet] at hi
        by_cases hieq : i = d.index
        · exact hieq ▸ ⟨hd.1, hd.2.1⟩
        · rw [if_neg hieq] at hi
          exact g5 i hi
      · rw [if_neg hlt] at hi
        exact absurd rfl hi
    · rw [if_neg hend, arrGet_arrSet] at hi
      by_cases hieq : i = d.index
      · exact hieq ▸ ⟨hd.1, hd.2.1⟩
      · rw [if_neg hieq] at hi
        exact g5 i hi

theorem tlStep_gap (N j : Nat) (hj : j < N) (st : TimelineState) (e : TLEvent)
    (hst : goodState N j st) (he : gapEvent N j e) (st' : TimelineState)
    (c : Option EngineCall) (h : tlStep st e = .ok (st', c)) :
    c = none ∧ goodState N j st' := by
  cases e with
  | update o =>
    simp only [tlStep, Except.ok.injEq, Prod.mk.injEq] at h
    obtain ⟨hst', hc⟩ := h
    have hp := tlUpdate_gap_preserve N j hj st o hst
    exact ⟨hc ▸ hp.1, hst' ▸ hp.2⟩
  | setConn b =>
    simp only [tlStep, Except.ok.injEq, Prod.mk.injEq] at h
    obtain ⟨hst', hc⟩ := h
    obtain ⟨g1, g2, g3, g4, g5⟩ := hst
    exact ⟨hc.symm, hst' ▸ ⟨g1, g2, g3, g4, g5⟩⟩
  | segEvt d =>
    simp only [tlStep] at h
    by_cases hl : st.listenerAdded = false
    · rw [if_pos hl] at h
      simp only [Except.ok.injEq, Prod.mk.injEq] at h
      obtain ⟨hst', hc⟩ := h
      exact ⟨hc.symm, hst' ▸ hst⟩
    · rw [if_neg hl] at h
      unfold listenerBody at h
      by_cases hname : d.name ≠ st.capturedOptions.bind fun x => x.name
      · rw [if_pos hname] at h
        simp only [Except.ok.injEq, Prod.mk.injEq] at h
        obtain ⟨hst', hc⟩ := h
        exact ⟨hc.symm, hst' ▸ hst⟩
      · rw [if_neg hname] at h
        rw [if_neg (by simp [hst.1])] at h
        cases hstore : listenerStore st d with
        | error err =>
          rw [hstore] at h
          exact absurd h (by simp)
        | ok st2 =>
          rw [hstore] at h
          simp only [Except.ok.injEq, Prod.mk.injEq] at h
          obtain ⟨hst', hc⟩ := h
          have hg2 := listenerStore_gap_preserve N j hj st d st2 hst he hstore
          have hp := tlUpdate_gap_preserve N j hj st2 st.capturedOptions hg2
          exact ⟨hc ▸ hp.1, hst' ▸ hp.2⟩

theorem tlRun_gap (N j : Nat) (hj : j < N) (evs : List TLEvent) :
    ∀ st : TimelineState, goodState N j st →
    (∀ e ∈ evs, gapEvent N j e) → (tlRun st evs).2 = [] := by
  induction evs with
  | nil =>
    intro st _ _
    rfl
  | cons e evs ih =>
    intro st hst hevs
    cases hstep : tlStep st e with
    | error err => simp [tlRun, hstep]
    | ok p =>
      obtain ⟨st', c⟩ := p
      have hg := tlStep_gap N j hj st e hst (hevs e (by simp)) st' c hstep
      simp only [tlRun, hstep, hg.1, Option.toList_none, List.nil_append]
      exact ih st' hg.2 (fun e' he' => hevs e' (by simp [he']))

theorem tlInit_goodState (N j : Nat) : goodState N j tlInit := by
  refine ⟨rfl, Or.inl rfl, by simp [tlInit], rfl, ?_⟩
  intro i hi
  exact absurd rfl hi

theorem tlRun_captured (evs : List TLEvent) : ∀ st stF : TimelineState,
    st.listenerAdded = true → (tlRun st evs).1 = .ok stF →
    stF.listenerAdded = true ∧ stF.capturedOptions = st.capturedOptions := by
  induction evs with
  | nil =>
    intro st stF hl h
    simp only [tlRun, Except.ok.injEq] at h
    exact h ▸ ⟨hl, rfl⟩
  | cons e evs ih =>
    intro st stF hl h
    cases hstep : tlStep st e with
    | error err => simp [tlRun, hstep] at h
    | ok p =>
      obtain ⟨st', c⟩ := p
      simp only [tlRun, hstep] at h
      have hspec := (tlStep_spec st e st' c hstep).2.2.2 hl
      have := ih st' stF hspec.1 h
      exact ⟨this.1, this.2.trans hspec.2⟩

/-! Claim theorems for the timeline coordinator. -/

/-- C1: for every Timeline coordinator, the composed animation is started
at most once along any event trace; an `update` readiness evaluation starts
it exactly when an expected length has been fixed and equals the running
filled-count, the element is connected, and no playback controls exist yet;
every filled slot of a delivered segment array holds the segment that a
trace event declared at that index (the collection is ordered by declared
indices); and the canonical two-segment timeline delivers
`[seg0, seg1]` with the default options. -/
theorem timeline_starts_exactly_once_iff_ready :
    (∀ evs : List TLEvent, ((tlRun tlInit evs).2).length ≤ 1) ∧
    (∀ (st : TimelineState) (o : Option TLOptions),
      ((tlUpdateBody st o).call).isSome = true ↔
        (st.segmentsLength = some st.segmentsCount ∧ st.connected = true ∧
          st.controls = none)) ∧
    (∀ (evs : List TLEvent) (a : List (Option Nat)) (o : Option TLOptions) (i s : Nat),
      (a, o) ∈ (tlRun tlInit evs).2 → arrGet a i = some s →
      ∃ d : SegDetail, TLEvent.segEvt d ∈ evs ∧ d.index = i ∧ d.segId = s) ∧
    (tlRun tlInit [TLEvent.update none, TLEvent.segEvt ⟨10, 0, false, none⟩,
        TLEvent.segEvt ⟨11, 1, true, none⟩]).2 = [([some 10, some 11], none)] := by
  refine ⟨?_, tlUpdateBody_call_iff, ?_, by rfl⟩
  · intro evs
    have h := tlRun_calls_le evs tlInit
    simpa [tlInit] using h
  · intro evs a o i s hmem hslot
    rcases tlRun_slots evs tlInit a o i s hmem hslot with h0 | h
    · rw [show tlInit.segments = [] from rfl] at h0
      simp [arrGet] at h0
    · exact h

/-- Witness for C1: concrete instances of each quantified conjunct. -/
theorem timeline_starts_exactly_once_iff_ready_witness :
    ((tlRun tlInit [TLEvent.update none, TLEvent.segEvt ⟨10, 0, false, none⟩,
        TLEvent.segEvt ⟨11, 1, true, none⟩]).2).length ≤ 1 ∧
    (∃ d : SegDetail, TLEvent.segEvt d ∈ [TLEvent.update none,
        TLEvent.segEvt ⟨10, 0, false, none⟩, TLEvent.segEvt ⟨11, 1, true, none⟩] ∧
        d.index = 0 ∧ d.segId = 10) ∧
    (((tlUpdateBody tlInit none).call).isSome = true ↔
      (tlInit.segmentsLength = some tlInit.segmentsCount ∧ tlInit.connected = true ∧
        tlInit.controls = none)) :=
  ⟨timeline_starts_exactly_once_iff_ready.1 _,
    timeline_starts_exactly_once_iff_ready.2.2.1 _ [some 10, some 11] none 0 10
      (by decide) (by decide),
    timeline_starts_exactly_once_iff_ready.2.1 tlInit none⟩

/-- C2 counterexample: a timeline whose end marker at index 1 fixes the
expected length 2, but whose other acknowledged segment sits at index 5 —
index 0 is never covered — nevertheless starts the composed animation: the
filled-count still reaches the expected length, and the engine receives a
sparse array with a hole at index 0.  The claim that such a timeline never
starts is therefore false. -/
theorem timeline_gap_start_counterexample :
    (tlRun tlInit [TLEvent.update none, TLEvent.segEvt ⟨11, 1, true, none⟩,
      TLEvent.segEvt ⟨15, 5, false, none⟩]).2 =
      [([none, some 11, none, none, none, some 15], none)] ∧
    (∀ d : SegDetail, TLEvent.segEvt d ∈ [TLEvent.update none,
        TLEvent.segEvt ⟨11, 1, true, none⟩, TLEvent.segEvt ⟨15, 5, false, none⟩] →
      d.index ≠ 0) := by
  refine ⟨rfl, ?_⟩
  intro d hd
  simp only [List.mem_cons, List.not_mem_nil, or_false] at hd
  rcases hd with h | h | h
  · exact absurd h (by simp)
  · cases h
    decide
  · cases h
    decide

/-- C2 amended: for every timeline whose acknowledged segments all sit at
indices inside `0..N-1` (with the end marker only at `N-1`) but miss some
index `j` of that range, the composed animation never starts — no engine
invocation occurs along any such event trace. -/
theorem timeline_gap_never_starts :
    ∀ (N j : Nat) (evs : List TLEvent), j < N →
    (∀ d : SegDetail, TLEvent.segEvt d ∈ evs →
      d.index < N ∧ d.index ≠ j ∧ (d.endM = true → d.index + 1 = N)) →
    (tlRun tlInit evs).2 = [] := by
  intro N j evs hj hevs
  refine tlRun_gap N j hj evs tlInit (tlInit_goodState N j) ?_
  intro e he
  cases e with
  | segEvt d => exact hevs d he
  | update o => trivial
  | setConn b => trivial

/-- Witness for the amended C2: a timeline with the end marker at index 1
(expected length 2) that never receives index 0 makes no engine call. -/
theorem timeline_gap_never_starts_witness :
    (tlRun tlInit [TLEvent.update none, TLEvent.segEvt ⟨11, 1, true, none⟩]).2 = [] := by
  refine timeline_gap_never_starts 2 0 _ (by decide) ?_
  intro d hd
  simp only [List.mem_cons, List.not_mem_nil, or_false] at hd
  rcases hd with h | h
  · exact absurd h (by simp)
  · cases h
    exact ⟨by decide, by decide, fun _ => rfl⟩

/-- C3: within one Timeline coordinator instance, a matching announcement
arriving after playback controls exist throws the started error; a second
segment at an occupied index throws the duplicate-index error; and a
second end-marked segment after an expected length has been recorded
throws the two-end-segments error. -/
theorem timeline_listener_fatal_errors :
    (∀ (st : TimelineState) (d : SegDetail),
      d.name = st.capturedOptions.bind (fun x => x.name) →
      st.controls ≠ none → listenerBody st d = .threw .started) ∧
    (∀ (st : TimelineState) (d : SegDetail),
      d.name = st.capturedOptions.bind (fun x => x.name) →
      st.controls = none → arrGet st.segments d.index ≠ none →
      listenerBody st d = .threw (.dup d.index)) ∧
    (∀ (st : TimelineState) (d : SegDetail) (n : Nat),
      d.name = st.capturedOptions.bind (fun x => x.name) →
      st.controls = none → arrGet st.segments d.index = none →
      d.endM = true → st.segmentsLength = some n →
      listenerBody st d = .threw .twoEnd) := by
  refine ⟨?_, ?_, ?_⟩
  · intro st d hname hctl
    unfold listenerBody
    rw [if_neg (not_not_intro hname), if_pos hctl]
  · intro st d hname hctl hdup
    unfold listenerBody
    rw [if_neg (not_not_intro hname), if_neg (not_not_intro hctl)]
    unfold listenerStore
    rw [if_pos hdup]
  · intro st d n hname hctl hfree hend hlen
    unfold listenerBody
    rw [if_neg (not_not_intro hname), if_neg (not_not_intro hctl)]
    unfold listenerStore
    rw [if_neg (not_not_intro hfree)]
    simp [hend, hlen]

/-- Witness for C3: the three fatal errors at concrete states. -/
theorem timeline_listener_fatal_errors_witness :
    listenerBody { tlInit with listenerAdded := true, controls := some () }
      ⟨5, 0, false, none⟩ = .threw .started ∧
    listenerBody { tlInit with listenerAdded := true, segments := [some 4], segmentsCount := 1 }
      ⟨5, 0, false, none⟩ = .threw (.dup 0) ∧
    listenerBody { tlInit with listenerAdded := true, segments := [some 4], segmentsCount := 1, segmentsLength := some 1 }
      ⟨5, 1, true, none⟩ = .threw .twoEnd :=
  ⟨timeline_listener_fatal_errors.1 _ ⟨5, 0, false, none⟩ rfl (by decide),
    timeline_listener_fatal_errors.2.1 _ ⟨5, 0, false, none⟩ rfl rfl (by decide),
    timeline_listener_fatal_errors.2.2 _ ⟨5, 1, true, none⟩ 1 rfl rfl (by decide) rfl rfl⟩

/-- C10 counterexample: the first update supplies options with payload 1;
the directive is then disconnected, the single end-marked segment is
acknowledged (which cannot start the animation while disconnected), the
directive reconnects, and a later update supplies options with payload 2.
That later update performs the start, and the engine receives the second
update's options — not those supplied to the first update, contradicting
the claim that the engine always receives the first update's options. -/
theorem timeline_options_capture_counterexample :
    (tlRun tlInit [TLEvent.update (some ⟨none, 1, false⟩), TLEvent.setConn false,
      TLEvent.segEvt ⟨7, 0, true, none⟩, TLEvent.setConn true,
      TLEvent.update (some ⟨none, 2, false⟩)]).2 =
      [([some 7], some ⟨none, 2, false⟩)] ∧
    (some (⟨none, 2, false⟩ : TLOptions)) ≠ some ⟨none, 1, false⟩ :=
  ⟨rfl, by decide⟩

/-- C10 amended: the listener is installed by the first update and its
captured options never change afterwards, so announcement matching and any
start performed from the listener's recursive update use the first
update's options; a start performed directly by a later `update`
invocation, however, passes that invocation's own options to the engine. -/
theorem timeline_listener_uses_first_options :
    (∀ (o : Option TLOptions) (evs : List TLEvent) (stF : TimelineState),
      (tlRun tlInit (TLEvent.update o :: evs)).1 = .ok stF →
      stF.listenerAdded = true ∧ stF.capturedOptions = o) ∧
    (∀ (st : TimelineState) (d : SegDetail) (st' : TimelineState)
      (a : List (Option Nat)) (oo : Option TLOptions),
      tlStep st (.segEvt d) = .ok (st', some (a, oo)) → oo = st.capturedOptions) ∧
    (∀ (st : TimelineState) (o : Option TLOptions) (st' : TimelineState)
      (a : List (Option Nat)) (oo : Option TLOptions),
      tlStep st (.update o) = .ok (st', some (a, oo)) → oo = o) := by
  refine ⟨?_, ?_, ?_⟩
  · intro o evs stF h
    have hinst := tlUpdate_install tlInit o rfl
    simp only [tlRun, tlStep] at h
    have := tlRun_captured evs (tlUpdate tlInit o).state stF hinst.1 h
    exact ⟨this.1, this.2.trans hinst.2⟩
  · intro st d st' a oo h
    simp only [tlStep] at h
    by_cases hl : st.listenerAdded = false
    · rw [if_pos hl] at h
      simp at h
    · rw [if_neg hl] at h
      have hl' : st.listenerAdded = true := by
        cases hla : st.listenerAdded
        · exact absurd hla hl
        · rfl
      cases hlb : listenerBody st d with
      | ignored =>
        rw [hlb] at h
        simp at h
      | threw err =>
        rw [hlb] at h
        simp at h
      | handled stH cH =>
        rw [hlb] at h
        simp only [Except.ok.injEq, Prod.mk.injEq] at h
        obtain ⟨h1, h2⟩ := h
        exact ((listenerBody_handled_spec st d stH cH hl' hlb).2.1 a oo h2).2
  · intro st o st' a oo h
    simp only [tlStep, Except.ok.injEq, Prod.mk.injEq] at h
    obtain ⟨h1, h2⟩ := h
    exact ((tlUpdate_spec st o).2.2.2.2.1 a oo h2).2

/-- Witness for the amended C10: after a lone first update with payload-1
options, the directive's state holds exactly those captured options. -/
theorem timeline_listener_uses_first_options_witness :
    ({ tlInit with listenerAdded := true, capturedOptions := some ⟨none, 1, false⟩ } : TimelineState).listenerAdded = true ∧
    ({ tlInit with listenerAdded := true, capturedOptions := some ⟨none, 1, false⟩ } : TimelineState).capturedOptions =
      some ⟨none, 1, false⟩ :=
  timeline_listener_uses_first_options.1 (some ⟨none, 1, false⟩) [] _ rfl

/-! Lemmas about the finished-callback lifecycle. -/

theorem finStep_no_complete_preserve (st : FinState) (e : FinEvent)
    (hne : e ≠ .complete) (h1 : st.fires = 0) (h2 : st.fp ≠ .notPending)
    (h3 : st.fp = .live → st.sig = .pending) :
    (finStep st e).fires = 0 ∧ (finStep st e).fp ≠ .notPending ∧
      ((finStep st e).fp = .live → (finStep st e).sig = .pending) := by
  obtain ⟨sig, fp, fires⟩ := st
  cases e with
  | complete => exact absurd rfl hne
  | disconnect => cases sig <;> cases fp <;> simp_all [finStep]
  | reconnect => cases sig <;> cases fp <;> simp_all [finStep]

theorem finStep_stuck_preserve (st : FinState) (e : FinEvent)
    (h1 : st.fires = 0) (h2 : st.fp = .stuck) :
    (finStep st e).fires = 0 ∧ (finStep st e).fp = .stuck := by
  obtain ⟨sig, fp, fires⟩ := st
  cases e <;> cases sig <;> simp_all [finStep]

theorem finStep_once_preserve (st : FinState) (e : FinEvent)
    (hne : e ≠ .reconnect) (h1 : st.fires ≤ 1) (h2 : st.fp = .live → st.fires = 0) :
    (finStep st e).fires ≤ 1 ∧ ((finStep st e).fp = .live → (finStep st e).fires = 0) := by
  obtain ⟨sig, fp, fires⟩ := st
  cases e with
  | reconnect => exact absurd rfl hne
  | complete => cases sig <;> cases fp <;> simp_all [finStep]
  | disconnect => cases sig <;> cases fp <;> simp_all [finStep]

theorem finStep_disconnect_stuck (st : FinState) (h1 : st.fires = 0)
    (h2 : st.fp ≠ .notPending) (h3 : st.fp = .live → st.sig = .pending) :
    (finStep st .disconnect).fires = 0 ∧ (finStep st .disconnect).fp = .stuck := by
  obtain ⟨sig, fp, fires⟩ := st
  cases sig <;> cases fp <;> simp_all [finStep]

theorem finRun_no_complete (evs : List FinEvent) : ∀ st : FinState,
    FinEvent.complete ∉ evs → st.fires = 0 → st.fp ≠ .notPending →
    (st.fp = .live → st.sig = .pending) →
    (finRun st evs).fires = 0 ∧ (finRun st evs).fp ≠ .notPending ∧
      ((finRun st evs).fp = .live → (finRun st evs).sig = .pending) := by
  induction evs with
  | nil => exact fun st _ h1 h2 h3 => ⟨h1, h2, h3⟩
  | cons e evs ih =>
    intro st hmem h1 h2 h3
    have hne : e ≠ .complete := fun h => hmem (by simp [h])
    have hstep := finStep_no_complete_preserve st e hne h1 h2 h3
    simpa [finRun, List.foldl_cons] using
      ih (finStep st e) (fun h => hmem (by simp [h])) hstep.1 hstep.2.1 hstep.2.2

theorem finRun_stuck (evs : List FinEvent) : ∀ st : FinState,
    st.fires = 0 → st.fp = .stuck → (finRun st evs).fires = 0 := by
  induction evs with
  | nil => exact fun st h1 _ => h1
  | cons e evs ih =>
    intro st h1 h2
    have hstep := finStep_stuck_preserve st e h1 h2
    simpa [finRun, List.foldl_cons] using ih (finStep st e) hstep.1 hstep.2

theorem finRun_no_reconnect (evs : List FinEvent) : ∀ st : FinState,
    FinEvent.reconnect ∉ evs → st.fires ≤ 1 → (st.fp = .live → st.fires = 0) →
    (finRun st evs).fires ≤ 1 := by
  induction evs with
  | nil => exact fun st _ h1 _ => h1
  | cons e evs ih =>
    intro st hmem h1 h2
    have hne : e ≠ .reconnect := fun h => hmem (by simp [h])
    have hstep := finStep_once_preserve st e hne h1 h2
    simpa [finRun, List.foldl_cons] using
      ih (finStep st e) (fun h => hmem (by simp [h])) hstep.1 hstep.2

/-- C4 counterexample: starting an animation with a `finished` callback,
letting it complete naturally (the callback fires once and
`#finishPromise` is reset to its sentinel), then disconnecting and
reconnecting: `reconnected()` calls `play()` — restarting the finished
run — and, finding `#finishPromise` at its sentinel, re-invokes the
finish waiter, so the callback fires a second time at the next natural
completion.  This refutes the claim that no disconnect/reconnect sequence
makes the callback fire twice. -/
theorem finished_double_fire_counterexample :
    (finRun finInit [.complete, .disconnect, .reconnect, .complete]).fires = 2 := rfl

/-- C4 amended: the `finished` callback never fires — not even after later
reconnections — when the element is disconnected before any natural
completion; and along any trace with no reconnection it fires at most
once.  A reconnection after natural completion, however, restarts
playback, re-arms the waiter, and lets the callback fire again (see the
counterexample). -/
theorem finished_once_per_run :
    (∀ evs1 evs2 : List FinEvent, FinEvent.complete ∉ evs1 →
      (finRun finInit (evs1 ++ FinEvent.disconnect :: evs2)).fires = 0) ∧
    (∀ evs : List FinEvent, FinEvent.reconnect ∉ evs →
      (finRun finInit evs).fires ≤ 1) := by
  constructor
  · intro evs1 evs2 hnc
    have hmid := finRun_no_complete evs1 finInit hnc rfl (by simp [finInit])
      (fun _ => rfl)
    have hdis := finStep_disconnect_stuck (finRun finInit evs1) hmid.1 hmid.2.1 hmid.2.2
    have : finRun finInit (evs1 ++ FinEvent.disconnect :: evs2) =
        finRun (finStep (finRun finInit evs1) .disconnect) evs2 := by
      simp [finRun, List.foldl_append, List.foldl_cons]
    rw [this]
    exact finRun_stuck evs2 _ hdis.1 hdis.2
  · intro evs hnr
    exact finRun_no_reconnect evs finInit hnr (by simp [finInit]) (fun _ => rfl)

/-- Witness for the amended C4: a run disconnected before completion never
fires, and a reconnect-free run fires at most once. -/
theorem finished_once_per_run_witness :
    (finRun finInit ([FinEvent.reconnect] ++ FinEvent.disconnect ::
      [FinEvent.complete, FinEvent.reconnect, FinEvent.complete])).fires = 0 ∧
    (finRun finInit [FinEvent.complete, FinEvent.complete,
      FinEvent.disconnect, FinEvent.complete]).fires ≤ 1 :=
  ⟨finished_once_per_run.1 [.reconnect]
      [.complete, .reconnect, .complete] (by decide),
    finished_once_per_run.2 [.complete, .complete, .disconnect, .complete] (by decide)⟩

/-- C5: the announcement constructed by `Segment.update` copies the
declared name only when it is a string (`typeof name === "string"`), so a
symbol name is dropped from the event.  Consequently a segment and a
timeline configured with the same symbol never match — the coordinator
ignores the announcement, contradicting the claim (and the declared
`name?: string | symbol` types) — while the nameless announcement of a
symbol-named segment is intercepted by a coordinator with no configured
name, although the declared names differ; string and absent names match
as claimed. -/
theorem segment_symbol_name_never_matches :
    eventName (some (Name.sym 0)) = none ∧
    listenerBody { tlInit with listenerAdded := true, capturedOptions := some ⟨some (Name.sym 0), 0, false⟩ }
      (mkDetail ⟨some (Name.sym 0), (0, true), 7⟩) = .ignored ∧
    listenerBody { tlInit with listenerAdded := true, capturedOptions := some ⟨none, 0, false⟩ }
      (mkDetail ⟨some (Name.sym 0), (0, true), 7⟩) ≠ .ignored ∧
    listenerBody { tlInit with listenerAdded := true, capturedOptions := some ⟨some (Name.str "t"), 0, false⟩ }
      (mkDetail ⟨some (Name.str "t"), (0, true), 7⟩) ≠ .ignored := by
  refine ⟨rfl, rfl, ?_, ?_⟩ <;> decide

/-- C6: for every segment registrar, the deferred dispatch loop
(`queueDispatch`) stays queued — retrying once per microtask tick — as
long as the element reports disconnected, dispatches exactly at the first
connected tick, and at that point throws the
must-be-below-a-timeline configuration error exactly when the
acknowledgment callback was never invoked by an ancestor coordinator. -/
theorem segment_dispatch_defer_and_ack_error :
    ∀ (k : Nat) (rest : List Bool) (ack : Bool),
      queueDispatch (List.replicate k false) ack = none ∧
      queueDispatch (List.replicate k false ++ true :: rest) ack =
        some (if ack then .ok () else .error
          "segment directive must be below an element with a timeline directive") := by
  intro k rest ack
  constructor
  · induction k with
    | zero => rfl
    | succ n ih => simpa [List.replicate_succ, queueDispatch] using ih
  · induction k with
    | zero => simp [queueDispatch]
    | succ n ih => simpa [List.replicate_succ, queueDispatch] using ih

/-- C7: a Single-Element Animator update in variant mode that re-selects
the key equal to the currently active variant key performs no engine
invocation and leaves the animator state unchanged (and this holds whether
or not the element is connected). -/
theorem animate_variant_reselect_noop :
    ∀ (st : AnState) (vs : List (Name × VariantDef)) (key : Name)
      (ctx : Option Nat) (opts : Option AnOpts),
      st.variant = some key →
      animateUpdate st (.withVariants vs key ctx opts) = .ok ⟨st, [], none⟩ := by
  intro st vs key ctx opts hv
  unfold animateUpdate
  by_cases hc : st.connected = false
  · rw [if_pos hc]
  · rw [if_neg hc]
    simp [hv]

/-- Witness for C7: re-selecting the active key "a" changes nothing. -/
theorem animate_variant_reselect_noop_witness :
    animateUpdate { anInit with variant := some (Name.str "a") }
      (.withVariants [] (Name.str "a") none none) =
      .ok ⟨{ anInit with variant := some (Name.str "a") }, [], none⟩ :=
  animate_variant_reselect_noop { anInit with variant := some (Name.str "a") }
    [] (Name.str "a") none none rfl

/-! Lemmas about the measurement adapter. -/

theorem mem_scanOrder (a : Attr) : a ∈ scanOrder := by
  cases a <;> decide

theorem kfSet_ne (kfs : Keyframes) (x a : Attr) (e : KFEntry) (h : a ≠ x) :
    kfSet kfs x e a = kfs a := by
  simp [kfSet, h]

theorem kfSet_self (kfs : Keyframes) (x : Attr) (e : KFEntry) :
    kfSet kfs x e x = e := by
  simp [kfSet]

theorem measureGo_spec (computed : Style → Attr → String) :
    ∀ (L : List Attr) (style : Style) (kfs : Keyframes) (acc : List (Attr × String)),
      L.Nodup →
      (∀ a, style a ≠ "auto") →
      (∀ a ∈ L, aborting (kfs a) = false) →
      (measureGo computed L style kfs acc).1 = style ∧
      (∀ a, (measureGo computed L style kfs acc).2.1 a =
        if a ∈ L ∧ terminal (kfs a) = some "auto" then
          substEntry (kfs a) (measuredVal computed style a)
        else kfs a) ∧
      (measureGo computed L style kfs acc).2.2 =
        acc ++ (L.filter (fun a => terminal (kfs a) == some "auto")).map
          (fun a => (a, "auto")) := by
  intro L
  induction L with
  | nil =>
    intro style kfs acc _ _ _
    exact ⟨rfl, fun a => by simp [measureGo], by simp [measureGo]⟩
  | cons x rest ih =>
    intro style kfs acc hnodup hstyle habort
    have hxrest : x ∉ rest := (List.nodup_cons.mp hnodup).1
    have hrestnodup : rest.Nodup := (List.nodup_cons.mp hnodup).2
    have habortrest : ∀ a ∈ rest, aborting (kfs a) = false :=
      fun a ha => habort a (by simp [ha])
    cases hkx : kfs x with
    | absent =>
      have hred : measureGo computed (x :: rest) style kfs acc =
          measureGo computed rest style kfs acc := by
        simp [measureGo, hkx]
      rw [hred]
      obtain ⟨ih1, ih2, ih3⟩ := ih style kfs acc hrestnodup hstyle habortrest
      refine ⟨ih1, ?_, ?_⟩
      · intro a
        rw [ih2 a]
        by_cases hax : a = x
        · subst hax
          simp [hxrest, hkx, terminal]
        · simp [List.mem_cons, hax]
      · rw [ih3, List.filter_cons]
        simp [hkx, terminal]
    | single v =>
      by_cases hv : v = "auto"
      · subst hv
        have hred : measureGo computed (x :: rest) style kfs acc =
            measureGo computed rest style
              (kfSet kfs x (.single (measuredVal computed style x)))
              (acc ++ [(x, "auto")]) := by
          simp [measureGo, hkx, hstyle x, getMeasuredValue, measuredVal]
        rw [hred]
        have habort' : ∀ a ∈ rest,
            aborting (kfSet kfs x (.single (measuredVal computed style x)) a) = false := by
          intro a ha
          rw [kfSet_ne kfs x a _ (fun h => hxrest (h ▸ ha))]
          exact habortrest a ha
        obtain ⟨ih1, ih2, ih3⟩ := ih style
          (kfSet kfs x (.single (measuredVal computed style x)))
          (acc ++ [(x, "auto")]) hrestnodup hstyle habort'
        refine ⟨ih1, ?_, ?_⟩
        · intro a
          rw [ih2 a]
          by_cases hax : a = x
          · subst hax
            rw [if_neg (fun hmem => hxrest hmem.1), kfSet_self]
            rw [if_pos ⟨by simp, by simp [hkx, terminal]⟩]
            simp [hkx, substEntry]
          · rw [kfSet_ne kfs x a _ hax]
            simp [List.mem_cons, hax]
        · rw [ih3, List.filter_cons]
          rw [if_pos (by simp [hkx, terminal])]
          rw [List.filter_congr (fun a ha =>
            by rw [kfSet_ne kfs x a _ (fun h => hxrest (h ▸ ha))])]
          simp
      · have hred : measureGo computed (x :: rest) style kfs acc =
            measureGo computed rest style kfs acc := by
          simp [measureGo, hkx, hstyle x, hv]
        rw [hred]
        obtain ⟨ih1, ih2, ih3⟩ := ih style kfs acc hrestnodup hstyle habortrest
        refine ⟨ih1, ?_, ?_⟩
        · intro a
          rw [ih2 a]
          by_cases hax : a = x
          · subst hax
            simp [hxrest, hkx, terminal, hv]
          · simp [List.mem_cons, hax]
        · rw [ih3, List.filter_cons]
          simp [hkx, terminal, hv]
    | arr vs =>
      have hlast : vs.getLast? = some "auto" := by
        have h0 := habort x (by simp)
        rw [hkx] at h0
        simpa [aborting] using h0
      have hred : measureGo computed (x :: rest) style kfs acc =
          measureGo computed rest style
            (kfSet kfs x (.arr (setLast vs (measuredVal computed style x))))
            (acc ++ [(x, "auto")]) := by
        simp [measureGo, hkx, hlast, hstyle x, getMeasuredValue, measuredVal]
      rw [hred]
      have habort' : ∀ a ∈ rest,
          aborting (kfSet kfs x (.arr (setLast vs (measuredVal computed style x))) a) = false := by
        intro a ha
        rw [kfSet_ne kfs x a _ (fun h => hxrest (h ▸ ha))]
        exact habortrest a ha
      obtain ⟨ih1, ih2, ih3⟩ := ih style
        (kfSet kfs x (.arr (setLast vs (measuredVal computed style x))))
        (acc ++ [(x, "auto")]) hrestnodup hstyle habort'
      refine ⟨ih1, ?_, ?_⟩
      · intro a
        rw [ih2 a]
        by_cases hax : a = x
        · subst hax
          rw [if_neg (fun hmem => hxrest hmem.1), kfSet_self]
          rw [if_pos ⟨by simp, by simp [hkx, terminal, hlast]⟩]
          simp [hkx, substEntry]
        · rw [kfSet_ne kfs x a _ hax]
          simp [List.mem_cons, hax]
      · rw [ih3, List.filter_cons]
        rw [if_pos (by simp [hkx, terminal, hlast])]
        rw [List.filter_congr (fun a ha =>
          by rw [kfSet_ne kfs x a _ (fun h => hxrest (h ▸ ha))])]
        simp

/-- C8 counterexample: with width given as a keyframe array whose terminal
value "50px" is not "auto" and height a single "auto", `measure` hits the
`return` in the array branch and abandons the whole scan: height — a
listed property with terminal value "auto" — is left unresolved and no
deferred restoration is registered, although the claim requires height to
be measured and requires non-"auto" properties not to prevent resolution
of the others. -/
theorem measure_abort_counterexample :
    ((measure (fun _ _ => "42px") (fun _ => "0px")
      (fun a => match a with
        | Attr.width => KFEntry.arr ["0px", "50px"]
        | Attr.height => KFEntry.single "auto"
        | _ => KFEntry.absent)).2.1 Attr.height = KFEntry.single "auto") ∧
    ((measure (fun _ _ => "42px") (fun _ => "0px")
      (fun a => match a with
        | Attr.width => KFEntry.arr ["0px", "50px"]
        | Attr.height => KFEntry.single "auto"
        | _ => KFEntry.absent)).2.2 = []) :=
  ⟨rfl, rfl⟩

/-- C8 amended: provided the inline style has no "auto" values and no
listed property carries an array keyframe with a non-"auto" terminal
value (such a property makes `measure` return early, leaving the
remaining listed properties unresolved), `measure` leaves the inline
style unchanged, replaces the terminal keyframe of every property whose
terminal value is "auto" by the value computed with "auto" applied over
the recorded-then-restored inline style, leaves every other property
unchanged, and registers — in scan order — one deferred action per
resolved property that re-applies "auto" after the animation finishes. -/
theorem measure_resolves_auto_terminals :
    ∀ (computed : Style → Attr → String) (style : Style) (kfs : Keyframes),
      (∀ a, style a ≠ "auto") →
      (∀ a, aborting (kfs a) = false) →
      (measure computed style kfs).1 = style ∧
      (∀ a, (measure computed style kfs).2.1 a =
        if terminal (kfs a) = some "auto" then
          substEntry (kfs a) (measuredVal computed style a)
        else kfs a) ∧
      (measure computed style kfs).2.2 =
        (scanOrder.filter (fun a => terminal (kfs a) == some "auto")).map
          (fun a => (a, "auto")) := by
  intro computed style kfs hstyle habort
  obtain ⟨h1, h2, h3⟩ := measureGo_spec computed scanOrder style kfs []
    (by decide) hstyle (fun a _ => habort a)
  refine ⟨h1, ?_, by simpa [measure] using h3⟩
  intro a
  rw [show (measure computed style kfs).2.1 = (measureGo computed scanOrder style kfs []).2.1 from rfl]
  rw [h2 a]
  simp [mem_scanOrder a]

/-- Witness for the amended C8: a keyframe set with a non-array "10px"
width and an "auto" height resolves height to the computed "42px" value
and registers exactly the height restoration. -/
theorem measure_resolves_auto_terminals_witness :
    ((measure (fun _ _ => "42px") (fun _ => "0px")
      (fun a => match a with
        | Attr.width => KFEntry.single "10px"
        | Attr.height => KFEntry.single "auto"
        | _ => KFEntry.absent)).2.1 Attr.height =
      if terminal (KFEntry.single "auto") = some "auto" then
        substEntry (KFEntry.single "auto")
          (measuredVal (fun _ _ => "42px") (fun _ => "0px") Attr.height)
      else KFEntry.single "auto") ∧
    ((measure (fun _ _ => "42px") (fun _ => "0px")
      (fun a => match a with
        | Attr.width => KFEntry.single "10px"
        | Attr.height => KFEntry.single "auto"
        | _ => KFEntry.absent)).1 = (fun _ => "0px")) :=
  ⟨(measure_resolves_auto_terminals (fun _ _ => "42px") (fun _ => "0px")
      (fun a => match a with
        | Attr.width => KFEntry.single "10px"
        | Attr.height => KFEntry.single "auto"
        | _ => KFEntry.absent)
      (fun a => by cases a <;> decide)
      (fun a => by cases a <;> rfl)).2.1 Attr.height,
    (measure_resolves_auto_terminals (fun _ _ => "42px") (fun _ => "0px")
      (fun a => match a with
        | Attr.width => KFEntry.single "10px"
        | Attr.height => KFEntry.single "auto"
        | _ => KFEntry.absent)
      (fun a => by cases a <;> decide)
      (fun a => by cases a <;> rfl)).1⟩

/-- C9 counterexample: `Animate.update` on a disconnected directive hits
the bare `return;` of the `!this.isConnected` guard and yields
`undefined`, not the `noChange` sentinel (the same happens on the variant
no-op, already-animating, not-yet-ready-timeline and
segment-already-attached paths).  The claim that every `update` returns
`noChange` on every path, early exits included, is therefore false. -/
theorem update_returns_undefined_counterexample :
    ¬ (∀ (st : AnState) (p : AnParams) (out : AnOut),
        animateUpdate st p = .ok out → out.ret = some ()) := by
  intro h
  have h0 := h { anInit with connected := false } (.simple 7 none)
    ⟨{ anInit with connected := false }, [], none⟩ rfl
  simp at h0

/-- C9 amended: every non-throwing `update` of the animate, timeline and
segment directives returns either the `noChange` sentinel or `undefined`,
and returns `noChange` exactly on the invocations that do their full work
— for animate when engine calls are made, for the timeline when the
composed animation is started, for the segment when an announcement
dispatch is queued; every early-exit path returns `undefined`. -/
theorem update_noChange_on_full_paths :
    (∀ (st : AnState) (p : AnParams) (out : AnOut), animateUpdate st p = .ok out →
      (out.ret = some () ∨ out.ret = none) ∧ (out.ret = some () ↔ out.calls ≠ [])) ∧
    (∀ (st : TimelineState) (o : Option TLOptions),
      ((tlUpdate st o).ret = some () ∨ (tlUpdate st o).ret = none) ∧
      ((tlUpdate st o).ret = some () ↔ (tlUpdate st o).call ≠ none)) ∧
    (∀ (st : SegState) (conn : Bool) (p : SegParams),
      ((segmentUpdate st conn p).ret = some () ∨ (segmentUpdate st conn p).ret = none) ∧
      ((segmentUpdate st conn p).ret = some () ↔ (segmentUpdate st conn p).queued ≠ none)) := by
  refine ⟨?_, ?_, ?_⟩
  · intro st p out h
    unfold animateUpdate at h
    by_cases hc : st.connected = false
    · rw [if_pos hc] at h
      have h2 : _ = out := Except.ok.inj h
      subst h2
      simp
    · rw [if_neg hc] at h
      cases p with
      | simple kf opts =>
        simp only [] at h
        by_cases hctl : st.controls ≠ none
        · rw [if_pos hctl] at h
          have h2 : _ = out := Except.ok.inj h
          subst h2
          simp
        · rw [if_neg hctl] at h
          have h2 : _ = out := Except.ok.inj h
          subst h2
          simp [animateStart]
      | withVariants vs key ctx opts =>
        simp only [] at h
        by_cases hvar : st.variant = some key
        · rw [if_pos hvar] at h
          have h2 : _ = out := Except.ok.inj h
          subst h2
          simp
        · rw [if_neg hvar] at h
          cases hlv : lookupVariant vs key with
          | none =>
            rw [hlv] at h
            exact absurd h (by simp)
          | some vd =>
            rw [hlv] at h
            cases vd with
            | obj kf vopts =>
              simp only at h
              have h2 : _ = out := Except.ok.inj h
              subst h2
              simp [animateStart]
            | fn f =>
              cases ctx with
              | none =>
                simp only at h
                exact absurd h (by simp)
              | some c =>
                simp only at h
                rcases hfc : f c with ⟨kf, vopts⟩
                rw [hfc] at h
                simp only at h
                have h2 : _ = out := Except.ok.inj h
                subst h2
                simp [animateStart]
  · intro st o
    unfold tlUpdate tlUpdateBody
    split <;> (simp only []; split <;> simp)
  · intro st conn p
    unfold segmentUpdate
    split
    · simp
    · simp

/-- Witness for the amended C9: the full simple-path animate update
returns `noChange` and makes exactly one engine call. -/
theorem update_noChange_on_full_paths_witness :
    (((⟨{ anInit with controls := some 0, nextId := 1 }, [EngCall.animate 7 none],
        some ()⟩ : AnOut).ret = some () ∨
      (⟨{ anInit with controls := some 0, nextId := 1 }, [EngCall.animate 7 none],
        some ()⟩ : AnOut).ret = none) ∧
    ((⟨{ anInit with controls := some 0, nextId := 1 }, [EngCall.animate 7 none],
        some ()⟩ : AnOut).ret = some () ↔
      (⟨{ anInit with controls := some 0, nextId := 1 }, [EngCall.animate 7 none],
        some ()⟩ : AnOut).calls ≠ [])) :=
  update_noChange_on_full_paths.1 anInit (.simple 7 none)
    ⟨{ anInit with controls := some 0, nextId := 1 }, [EngCall.animate 7 none], some ()⟩
    rfl

end LitMotion
